import Mathlib

/-!
Verification development for `dbms/src/AggregateFunctions/AggregateFunctionQuantile.h`:
the approximate-quantile aggregate functions `quantile` and `quantiles` built on a
reservoir sampler.  The adaptor classes (`AggregateFunctionQuantile`,
`AggregateFunctionQuantiles`) are embedded directly from the header.  The reservoir
sampler itself (`ReservoirSampler.h`) and the field visitor (`FieldVisitors.h`) are not
part of the available sources, so they are modelled from the specification, as marked on
each such definition.  Sample values and levels are represented as rationals, so the
interpolation arithmetic is exact; machine-word randomness is an explicit `% 2 ^ 64`
linear congruential state.
-/

namespace DB

/-- Result of a quantile read-out: either the NaN sentinel (empty sample in floating
mode) or an ordinary numeric value. -/
inductive RSResult where
  | nan : RSResult
  | val (x : ℚ) : RSResult
deriving DecidableEq, Repr

/-- Modelled from the spec: the sampler's deterministic per-instance pseudo-random
generator (`rng_state`).  The spec fixes no concrete algorithm, only that the state is
deterministic and seedable; a 64-bit linear congruential step stands in. -/
def rngNext (g : ℕ) : ℕ := (g * 6364136223846793005 + 1442695040888963407) % 2 ^ 64

/-- Modelled from the spec: `ReservoirSampler<T>` state (`ReservoirSampler.h` is not in
the available sources).  Fields follow the spec's data model: fixed `capacity`, monotonic
`seen_count`, the bounded `sample` container, and the private `rng_state`. -/
structure ReservoirSampler where
  capacity : ℕ
  seen_count : ℕ
  sample : List ℚ
  rng_state : ℕ
deriving DecidableEq, Repr

/-- Modelled from the spec: a freshly constructed sampler with an injected seed:
`seen_count = 0`, empty sample. -/
def ReservoirSampler.init (cap : ℕ) (seed : ℕ) : ReservoirSampler :=
  ⟨cap, 0, [], seed⟩

/-- The sampler's documented invariant: `|sample| == min(seen_count, capacity)`. -/
def ReservoirSampler.inv (s : ReservoirSampler) : Prop :=
  s.sample.length = min s.seen_count s.capacity

/-- Modelled from the spec: `insert(value)`.  While `seen_count < capacity` the value is
appended; afterwards, with probability `capacity / seen_count` (a uniform draw below the
new `seen_count` landing below `capacity`), a uniformly chosen slot is replaced. -/
def ReservoirSampler.insert (s : ReservoirSampler) (v : ℚ) : ReservoirSampler :=
  if s.seen_count < s.capacity then
    { s with seen_count := s.seen_count + 1, sample := s.sample ++ [v] }
  else
    let seen := s.seen_count + 1
    let g := rngNext s.rng_state
    let r := g % seen
    { s with seen_count := seen, rng_state := g,
             sample := if r < s.capacity then s.sample.set r v else s.sample }

/-- Inserting a whole stream, value by value. -/
def ReservoirSampler.insertList (s : ReservoirSampler) (vs : List ℚ) : ReservoirSampler :=
  vs.foldl ReservoirSampler.insert s

/-- Modelled from the spec: the weighted random subset drawn by `merge` when the union
does not fit: each slot is filled from one of the two source samples, chosen with
probability proportional to that source's share of the combined `seen_count`. -/
def drawWeighted (a b : ReservoirSampler) (combined : ℕ) : ℕ → ℕ → List ℚ × ℕ
  | 0, g => ([], g)
  | i + 1, g =>
    let g2 := rngNext g
    let r := g2 % combined
    let x := if r < b.seen_count then b.sample.getD (i % b.sample.length) 0
             else a.sample.getD (i % a.sample.length) 0
    let rest := drawWeighted a b combined i g2
    (x :: rest.1, rest.2)

/-- Modelled from the spec: `merge(other)`.  `combined_seen` is the sum of the two
`seen_count`s; if the two samples together fit within `capacity` all elements are kept,
otherwise a weighted random subset of `capacity` elements is drawn from the union. -/
def ReservoirSampler.merge (s b : ReservoirSampler) : ReservoirSampler :=
  let combined := s.seen_count + b.seen_count
  if s.sample.length + b.sample.length ≤ s.capacity then
    { s with seen_count := combined, sample := s.sample ++ b.sample }
  else
    let dw := drawWeighted s b combined s.capacity (rngNext s.rng_state)
    { s with seen_count := combined, sample := dw.1, rng_state := dw.2 }

/-- Linear interpolation between adjacent order statistics of a sorted list, at the
fractional rank `r = clamp(level) * (n - 1)` (the spec's estimator formula; the level is
clamped to `[0,1]` before computation). -/
def interpolate (l : List ℚ) (level : ℚ) : ℚ :=
  let c := max 0 (min 1 level)
  let r : ℚ := c * ((l.length : ℚ) - 1)
  let lo := r.floor.toNat
  let hi := r.ceil.toNat
  let vlo := l.getD lo 0
  let vhi := l.getD hi 0
  vlo + (r - (r.floor : ℚ)) * (vhi - vlo)

/-- The sorted snapshot of the sampler's current sample. -/
def ReservoirSampler.snapshot (s : ReservoirSampler) : List ℚ :=
  s.sample.mergeSort (fun a b => decide (a ≤ b))

/-- Modelled from the spec: `quantileInterpolated(level)` of the sampler, in the
`RETURN_NAN_OR_ZERO` on-empty mode named by the header: the NaN sentinel on an empty
sample, otherwise linear interpolation on the sorted sample.  Per the header's comment at
its `const_cast` ("`Sample` can be sorted when a quantile is received"), the call sorts
the live sample buffer in place, so it returns the updated sampler state as well. -/
def ReservoirSampler.quantileInterpolated (s : ReservoirSampler) (level : ℚ) :
    RSResult × ReservoirSampler :=
  if s.sample.isEmpty then (.nan, s)
  else (.val (interpolate s.snapshot level), { s with sample := s.snapshot })

/-- The value part of a quantile read-out (what the caller observes). -/
def ReservoirSampler.quantilePure (s : ReservoirSampler) (level : ℚ) : RSResult :=
  (s.quantileInterpolated level).1

/-- One serialized token: a fixed-width unsigned integer or one raw sample value. -/
inductive SerTok where
  | word (n : ℕ) : SerTok
  | value (v : ℚ) : SerTok
deriving DecidableEq, Repr

/-- Deserialization failure taxonomy from the spec: malformed input, or a sample length
inconsistent with the `capacity`/`seen_count` invariant. -/
inductive SerError where
  | malformed : SerError
  | inconsistentLength : SerError
deriving DecidableEq, Repr

/-- Modelled from the spec: the serializer's fixed binary layout — `capacity`,
`seen_count`, the explicit sample length, then the raw sample values in storage
order. -/
def ReservoirSampler.write (s : ReservoirSampler) : List SerTok :=
  [.word s.capacity, .word s.seen_count, .word s.sample.length] ++ s.sample.map .value

/-- Reads `n` raw values off the token stream. -/
def readValues : ℕ → List SerTok → Option (List ℚ × List SerTok)
  | 0, toks => some ([], toks)
  | n + 1, .value v :: toks =>
    (readValues n toks).map (fun p => (v :: p.1, p.2))
  | _ + 1, _ => none

/-- Modelled from the spec: deserialization of the layout written by
`ReservoirSampler.write`, rejecting a stored length inconsistent with the
`min(capacity, seen_count)` invariant instead of silently truncating.  The fresh
in-memory state gets an injected `seed` for its private generator. -/
def ReservoirSampler.read (seed : ℕ) (toks : List SerTok) :
    Except SerError ReservoirSampler :=
  match toks with
  | .word cap :: .word seen :: .word len :: rest =>
    if len ≠ min seen cap then .error .inconsistentLength
    else
      match readValues len rest with
      | some (vs, []) => .ok ⟨cap, seen, vs, seed⟩
      | _ => .error .malformed
  | _ => .error .malformed

/-- Error codes surfaced by configuration, from the header's `setParameters` (wrong
parameter count) and, modelled from the spec, the field visitor's failure on a
non-numeric parameter. -/
inductive QErrorCode where
  | numberOfArgumentsDoesntMatch : QErrorCode
  | cannotConvertToNumber : QErrorCode
deriving DecidableEq, Repr

/-- Modelled from the spec: a host parameter value (`Field`).  The spec distinguishes
only numeric parameters from non-numeric ones. -/
inductive Field where
  | num (x : ℚ) : Field
  | nonNumeric : Field
deriving DecidableEq, Repr

/-- Modelled from the spec: `applyVisitor(FieldVisitorConvertToNumber<Float64>(), f)`
(`FieldVisitors.h` is not in the available sources) — numeric conversion of a parameter,
failing on a non-numeric field. -/
def FieldVisitorConvertToNumber : Field → Except QErrorCode ℚ
  | .num x => .ok x
  | .nonNumeric => .error .cannotConvertToNumber

/-- Whether a parameter has a numeric conversion. -/
def Field.isNumeric : Field → Bool
  | .num _ => true
  | .nonNumeric => false

/-- Decidable success test for configuration results. -/
def exceptOk {ε α : Type} : Except ε α → Bool
  | .ok _ => true
  | .error _ => false

/-- The data types of the host engine the header touches: numeric element types
(including date and date-time, per the header's comment) and the array type constructor
used by the multi-quantile result. -/
inductive DataType where
  | float64 : DataType
  | float32 : DataType
  | uint8 : DataType
  | uint16 : DataType
  | uint32 : DataType
  | uint64 : DataType
  | int8 : DataType
  | int16 : DataType
  | int32 : DataType
  | int64 : DataType
  | date : DataType
  | dateTime : DataType
  | array (elem : DataType) : DataType
deriving DecidableEq, Repr

/-- State of the `quantile` adaptor: the configured level (the stored return `type` is
threaded through `setArgument`/`getReturnTypeOf` below). -/
structure AggregateFunctionQuantile where
  level : ℚ
deriving DecidableEq, Repr

/-- The constructor `AggregateFunctionQuantile(double level_ = 0.5)`. -/
def AggregateFunctionQuantile.construct (level_ : ℚ := 1 / 2) : AggregateFunctionQuantile :=
  ⟨level_⟩

/-- `setArgument`: the stored return type is `Float64` when `returns_float`, otherwise
the argument type itself. -/
def AggregateFunctionQuantile.setArgument (returns_float : Bool) (argument : DataType) :
    DataType :=
  if returns_float then .float64 else argument

/-- `getReturnType` of the single-quantile adaptor: the type stored by `setArgument`. -/
def AggregateFunctionQuantile.getReturnTypeOf (type : DataType) : DataType := type

/-- `setParameters` of `quantile`: exactly one parameter, converted to a number and
stored as the level. -/
def AggregateFunctionQuantile.setParameters (f : AggregateFunctionQuantile)
    (params : List Field) : Except QErrorCode AggregateFunctionQuantile :=
  match params with
  | [p] => (FieldVisitorConvertToNumber p).map (fun lv => { f with level := lv })
  | _ => .error .numberOfArgumentsDoesntMatch

/-- `insertResultInto` of `quantile` with `returns_float = true`: pushes the
interpolated quantile at the configured level onto the `Float64` column; the sampler is
the one behind the `const_cast`, returned because the read-out may sort it. -/
def AggregateFunctionQuantile.insertResultIntoFloat (f : AggregateFunctionQuantile)
    (place : ReservoirSampler) (toCol : List RSResult) : List RSResult × ReservoirSampler :=
  let q := place.quantileInterpolated f.level
  (toCol ++ [q.1], q.2)

/-- Truncation toward zero of a rational, as a C++ cast to an integral type. -/
def ratTruncToInt (q : ℚ) : ℤ :=
  if 0 ≤ q.num then ((q.num.toNat / q.den : ℕ) : ℤ) else -(((-q.num).toNat / q.den : ℕ) : ℤ)

/-- Conversion of a read-out to an integral column element; per the spec the NaN
sentinel becomes zero in integral mode. -/
def RSResult.toIntegral : RSResult → ℤ
  | .nan => 0
  | .val q => ratTruncToInt q

/-- `insertResultInto` of `quantile` with `returns_float = false`: pushes onto the
argument-typed (integral) column. -/
def AggregateFunctionQuantile.insertResultIntoInt (f : AggregateFunctionQuantile)
    (place : ReservoirSampler) (toCol : List ℤ) : List ℤ × ReservoirSampler :=
  let q := place.quantileInterpolated f.level
  (toCol ++ [q.1.toIntegral], q.2)

/-- State of the `quantiles` adaptor: the configured level sequence. -/
structure AggregateFunctionQuantiles where
  levels : List ℚ
deriving DecidableEq, Repr

/-- `setArgument` of `quantiles` (identical to the single-quantile one). -/
def AggregateFunctionQuantiles.setArgument (returns_float : Bool) (argument : DataType) :
    DataType :=
  if returns_float then .float64 else argument

/-- `getReturnType` of `quantiles`: an array of the stored element type. -/
def AggregateFunctionQuantiles.getReturnTypeOf (type : DataType) : DataType := .array type

/-- `setParameters` of `quantiles`: at least one parameter, all converted to numbers and
stored as the level sequence in the given order. -/
def AggregateFunctionQuantiles.setParameters (f : AggregateFunctionQuantiles)
    (params : List Field) : Except QErrorCode AggregateFunctionQuantiles :=
  if params.isEmpty then .error .numberOfArgumentsDoesntMatch
  else (params.mapM FieldVisitorConvertToNumber).map (fun ls => { f with levels := ls })

/-- An array column over `Float64`: the nested data column and the offsets column, as in
`ColumnArray`. -/
structure ColumnArrayFloat where
  data : List RSResult
  offsets : List ℕ
deriving DecidableEq, Repr

/-- An array column over an integral element type. -/
structure ColumnArrayInt where
  data : List ℤ
  offsets : List ℕ
deriving DecidableEq, Repr

/-- The read-out loop of `quantiles/insertResultInto` (float branch): one
`quantileInterpolated` call per level, in order, threading the sampler state that each
call may sort. -/
def quantLoop (s : ReservoirSampler) : List ℚ → List RSResult × ReservoirSampler
  | [] => ([], s)
  | l :: ls =>
    let q := s.quantileInterpolated l
    let rest := quantLoop q.2 ls
    (q.1 :: rest.1, rest.2)

/-- The read-out loop of `quantiles/insertResultInto` (integral branch). -/
def quantLoopInt (s : ReservoirSampler) : List ℚ → List ℤ × ReservoirSampler
  | [] => ([], s)
  | l :: ls =>
    let q := s.quantileInterpolated l
    let rest := quantLoopInt q.2 ls
    (q.1.toIntegral :: rest.1, rest.2)

/-- `insertResultInto` of `quantiles` with `returns_float = true`: appends one offset
entry equal to the previous last offset (`0` if none) plus `levels.size()`, then pushes
one interpolated quantile per configured level, in configured order. -/
def AggregateFunctionQuantiles.insertResultIntoFloat (f : AggregateFunctionQuantiles)
    (place : ReservoirSampler) (toCol : ColumnArrayFloat) :
    ColumnArrayFloat × ReservoirSampler :=
  let size := f.levels.length
  let offsets2 := toCol.offsets ++ [toCol.offsets.getLastD 0 + size]
  let r := quantLoop place f.levels
  (⟨toCol.data ++ r.1, offsets2⟩, r.2)

/-- `insertResultInto` of `quantiles` with `returns_float = false`. -/
def AggregateFunctionQuantiles.insertResultIntoInt (f : AggregateFunctionQuantiles)
    (place : ReservoirSampler) (toCol : ColumnArrayInt) :
    ColumnArrayInt × ReservoirSampler :=
  let size := f.levels.length
  let offsets2 := toCol.offsets ++ [toCol.offsets.getLastD 0 + size]
  let r := quantLoopInt place f.levels
  (⟨toCol.data ++ r.1, offsets2⟩, r.2)

/-! Helper lemmas about the sampler. -/

lemma snapshot_perm (s : ReservoirSampler) : s.snapshot.Perm s.sample :=
  List.mergeSort_perm s.sample _

lemma mergeSort_le_idem (l : List ℚ) :
    (l.mergeSort (fun a b => decide (a ≤ b))).mergeSort (fun a b => decide (a ≤ b)) =
      l.mergeSort (fun a b => decide (a ≤ b)) := by
  apply List.mergeSort_of_sorted
  apply List.sorted_mergeSort
  · intro a b c hab hbc
    simp only [decide_eq_true_eq] at *
    exact le_trans hab hbc
  · intro a b
    simp [le_total]

lemma quantileInterpolated_capacity (s : ReservoirSampler) (l : ℚ) :
    (s.quantileInterpolated l).2.capacity = s.capacity := by
  unfold ReservoirSampler.quantileInterpolated
  split <;> rfl

lemma quantileInterpolated_seen (s : ReservoirSampler) (l : ℚ) :
    (s.quantileInterpolated l).2.seen_count = s.seen_count := by
  unfold ReservoirSampler.quantileInterpolated
  split <;> rfl

lemma quantileInterpolated_sample_perm (s : ReservoirSampler) (l : ℚ) :
    (s.quantileInterpolated l).2.sample.Perm s.sample := by
  unfold ReservoirSampler.quantileInterpolated
  split
  · exact List.Perm.refl _
  · exact snapshot_perm s

lemma quantileInterpolated_snd_sample (s : ReservoirSampler) (l : ℚ)
    (h : s.sample.isEmpty = false) :
    (s.quantileInterpolated l).2 = { s with sample := s.snapshot } := by
  unfold ReservoirSampler.quantileInterpolated
  rw [if_neg (by simp [h])]

lemma quantilePure_eq (s : ReservoirSampler) (l : ℚ) :
    s.quantilePure l =
      if s.sample.isEmpty then RSResult.nan
      else RSResult.val (interpolate s.snapshot l) := by
  unfold ReservoirSampler.quantilePure ReservoirSampler.quantileInterpolated
  split <;> simp_all

lemma quantilePure_after (s : ReservoirSampler) (l l2 : ℚ) :
    ((s.quantileInterpolated l).2).quantilePure l2 = s.quantilePure l2 := by
  by_cases h : s.sample.isEmpty
  · unfold ReservoirSampler.quantileInterpolated
    rw [if_pos h]
  · have hlen : s.snapshot.length = s.sample.length := (snapshot_perm s).length_eq
    have hemp : s.snapshot.isEmpty = false := by
      cases hsnap : s.snapshot with
      | nil =>
        rw [hsnap] at hlen
        cases hs : s.sample with
        | nil => rw [hs] at h; simp at h
        | cons a t => rw [hs] at hlen; simp at hlen
      | cons a t => simp
    rw [quantileInterpolated_snd_sample s l (by simpa using h)]
    rw [quantilePure_eq, quantilePure_eq]
    have : ReservoirSampler.snapshot { s with sample := s.snapshot } = s.snapshot := by
      unfold ReservoirSampler.snapshot
      exact mergeSort_le_idem s.sample
    simp only [this, hemp]
    simp [h]

lemma quantLoop_fst (s : ReservoirSampler) (ls : List ℚ) :
    (quantLoop s ls).1 = ls.map s.quantilePure := by
  induction ls generalizing s with
  | nil => rfl
  | cons l ls ih =>
    show (s.quantilePure l :: (quantLoop (s.quantileInterpolated l).2 ls).1) = _
    rw [ih]
    simp only [List.map_cons, List.cons.injEq, true_and]
    exact List.map_congr_left (fun a _ => quantilePure_after s l a)

lemma quantLoop_snd_capacity (s : ReservoirSampler) (ls : List ℚ) :
    (quantLoop s ls).2.capacity = s.capacity := by
  induction ls generalizing s with
  | nil => rfl
  | cons l ls ih =>
    show (quantLoop (s.quantileInterpolated l).2 ls).2.capacity = _
    rw [ih, quantileInterpolated_capacity]

lemma quantLoop_snd_seen (s : ReservoirSampler) (ls : List ℚ) :
    (quantLoop s ls).2.seen_count = s.seen_count := by
  induction ls generalizing s with
  | nil => rfl
  | cons l ls ih =>
    show (quantLoop (s.quantileInterpolated l).2 ls).2.seen_count = _
    rw [ih, quantileInterpolated_seen]

lemma quantLoop_snd_perm (s : ReservoirSampler) (ls : List ℚ) :
    (quantLoop s ls).2.sample.Perm s.sample := by
  induction ls generalizing s with
  | nil => exact List.Perm.refl _
  | cons l ls ih =>
    show (quantLoop (s.quantileInterpolated l).2 ls).2.sample.Perm _
    exact (ih _).trans (quantileInterpolated_sample_perm s l)

lemma quantLoop_length (s : ReservoirSampler) (ls : List ℚ) :
    (quantLoop s ls).1.length = ls.length := by
  rw [quantLoop_fst, List.length_map]

lemma quantLoopInt_fst (s : ReservoirSampler) (ls : List ℚ) :
    (quantLoopInt s ls).1 = (quantLoop s ls).1.map RSResult.toIntegral := by
  induction ls generalizing s with
  | nil => rfl
  | cons l ls ih =>
    show ((s.quantileInterpolated l).1.toIntegral :: _) = _
    rw [ih]
    rfl

lemma quantLoopInt_snd (s : ReservoirSampler) (ls : List ℚ) :
    (quantLoopInt s ls).2 = (quantLoop s ls).2 := by
  induction ls generalizing s with
  | nil => rfl
  | cons l ls ih =>
    show (quantLoopInt (s.quantileInterpolated l).2 ls).2 = _
    rw [ih]
    rfl

lemma quantLoopInt_length (s : ReservoirSampler) (ls : List ℚ) :
    (quantLoopInt s ls).1.length = ls.length := by
  rw [quantLoopInt_fst, List.length_map, quantLoop_length]

lemma insert_seen (s : ReservoirSampler) (v : ℚ) :
    (s.insert v).seen_count = s.seen_count + 1 := by
  unfold ReservoirSampler.insert
  split <;> rfl

lemma insert_capacity (s : ReservoirSampler) (v : ℚ) :
    (s.insert v).capacity = s.capacity := by
  unfold ReservoirSampler.insert
  split <;> rfl

lemma insert_inv (s : ReservoirSampler) (v : ℚ) (h : s.inv) : (s.insert v).inv := by
  unfold ReservoirSampler.inv ReservoirSampler.insert at *
  split
  · simp only [List.length_append, List.length_cons, List.length_nil]
    omega
  · dsimp
    split
    · simp only [List.length_set]
      omega
    · omega

lemma insertList_seen (s : ReservoirSampler) (vs : List ℚ) :
    (s.insertList vs).seen_count = s.seen_count + vs.length := by
  induction vs generalizing s with
  | nil => rfl
  | cons v vs ih =>
    show ((s.insert v).insertList vs).seen_count = _
    rw [ih, insert_seen]
    simp only [List.length_cons]
    omega

lemma insertList_capacity (s : ReservoirSampler) (vs : List ℚ) :
    (s.insertList vs).capacity = s.capacity := by
  induction vs generalizing s with
  | nil => rfl
  | cons v vs ih =>
    show ((s.insert v).insertList vs).capacity = _
    rw [ih, insert_capacity]

lemma insertList_inv (s : ReservoirSampler) (vs : List ℚ) (h : s.inv) :
    (s.insertList vs).inv := by
  induction vs generalizing s with
  | nil => exact h
  | cons v vs ih => exact ih _ (insert_inv s v h)

lemma drawWeighted_length (a b : ReservoirSampler) (combined : ℕ) (n g : ℕ) :
    (drawWeighted a b combined n g).1.length = n := by
  induction n generalizing g with
  | zero => rfl
  | succ n ih =>
    show _ + 1 = _
    rw [ih]

lemma merge_seen (a b : ReservoirSampler) :
    (a.merge b).seen_count = a.seen_count + b.seen_count := by
  unfold ReservoirSampler.merge
  split <;> rfl

lemma merge_capacity (a b : ReservoirSampler) :
    (a.merge b).capacity = a.capacity := by
  unfold ReservoirSampler.merge
  split <;> rfl

lemma merge_inv (a b : ReservoirSampler) (ha : a.inv) (hb : b.inv)
    (hcap : a.capacity = b.capacity) : (a.merge b).inv := by
  unfold ReservoirSampler.inv ReservoirSampler.merge at *
  split
  · case isTrue h =>
    simp only [List.length_append] at *
    omega
  · case isFalse h =>
    simp only [drawWeighted_length] at *
    omega

lemma readValues_append (vs : List ℚ) (rest : List SerTok) :
    readValues vs.length (vs.map SerTok.value ++ rest) = some (vs, rest) := by
  induction vs with
  | nil => rfl
  | cons v vs ih =>
    simp only [List.length_cons, List.map_cons, List.cons_append, readValues,
      List.append_eq, ih]
    rfl

lemma mapM_convert_num (qs : List ℚ) :
    (qs.map Field.num).mapM FieldVisitorConvertToNumber = Except.ok qs := by
  induction qs with
  | nil => rfl
  | cons q qs ih =>
    rw [List.map_cons, List.mapM_cons, ih]
    rfl

lemma exceptOk_mapM_convert (params : List Field) :
    exceptOk (params.mapM FieldVisitorConvertToNumber) = params.all Field.isNumeric := by
  induction params with
  | nil => rfl
  | cons p ps ih =>
    cases p with
    | num x =>
      rw [List.mapM_cons]
      cases hm : ps.mapM FieldVisitorConvertToNumber with
      | ok xs =>
        rw [hm] at ih
        simp only [List.all_cons, Field.isNumeric, Bool.true_and, ← ih]
        rfl
      | error e =>
        rw [hm] at ih
        simp only [List.all_cons, Field.isNumeric, Bool.true_and, ← ih]
        rfl
    | nonNumeric =>
      simp only [List.mapM_cons, List.all_cons, Field.isNumeric, Bool.false_and]
      rfl

/-! Claim theorems. -/

/-- C7: for every input element type, the declared result type is `Float64` when the
adaptor promotes to floating output (`returns_float = true`) and otherwise exactly the
input element type; the multi-quantile adaptor declares an array of that element
type. -/
theorem return_type_promotion (rf : Bool) (arg : DataType) :
    AggregateFunctionQuantile.getReturnTypeOf (AggregateFunctionQuantile.setArgument rf arg) =
      (if rf then DataType.float64 else arg) ∧
    AggregateFunctionQuantiles.getReturnTypeOf (AggregateFunctionQuantiles.setArgument rf arg) =
      DataType.array (if rf then DataType.float64 else arg) := by
  cases rf <;> exact ⟨rfl, rfl⟩

/-- C9: a single-quantile adaptor on which `setParameters` is never called has its level
default-initialized to `0.5` by the constructor, so an unconfigured finalize is
well-defined and appends the quantile at level `0.5` (the median). -/
theorem default_level_is_median :
    AggregateFunctionQuantile.construct = ⟨1 / 2⟩ ∧
    ∀ (s : ReservoirSampler) (toCol : List RSResult),
      (AggregateFunctionQuantile.construct.insertResultIntoFloat s toCol).1 =
        toCol ++ [s.quantilePure (1 / 2)] := by
  exact ⟨rfl, fun s toCol => rfl⟩

/-- C6: finalizing a freshly configured state with zero inserted values returns the
defined sentinel — the NaN marker in floating mode, zero in integral mode — rather than
failing. -/
theorem empty_finalize_sentinel (cap seed : ℕ) (f : AggregateFunctionQuantile)
    (toF : List RSResult) (toI : List ℤ) :
    (f.insertResultIntoFloat (ReservoirSampler.init cap seed) toF).1 =
      toF ++ [RSResult.nan] ∧
    (f.insertResultIntoInt (ReservoirSampler.init cap seed) toI).1 =
      toI ++ [(0 : ℤ)] := by
  exact ⟨rfl, rfl⟩

/-- C2 counterexample: `setParameters` accepts the out-of-range level `3/2 > 1` without
any configuration error, storing it as the level — the claimed eager range check does
not exist in the code. -/
theorem setParameters_accepts_out_of_range_level :
    AggregateFunctionQuantile.construct.setParameters [Field.num (3 / 2)] =
      Except.ok ⟨3 / 2⟩ ∧
    ¬ ((3 : ℚ) / 2 ≤ 1) := by
  constructor
  · rfl
  · norm_num

/-- C2 amended: `setParameters` performs no range validation on the level: every
numeric parameter value, also one outside `[0,1]`, is accepted and stored verbatim as
the level (single mode) or the level sequence (multi mode); out-of-range levels are only
clamped later inside the estimator. -/
theorem setParameters_stores_any_numeric_level (f : AggregateFunctionQuantile)
    (g : AggregateFunctionQuantiles) (q : ℚ) (qs : List ℚ) :
    f.setParameters [Field.num q] = Except.ok ⟨q⟩ ∧
    g.setParameters (Field.num q :: qs.map Field.num) = Except.ok ⟨q :: qs⟩ := by
  constructor
  · rfl
  · show (((Field.num q :: qs.map Field.num).mapM FieldVisitorConvertToNumber).map _) = _
    rw [show (Field.num q :: qs.map Field.num) = (q :: qs).map Field.num from rfl,
      mapM_convert_num]
    rfl

/-- C8 counterexample: the single-quantile `setParameters` also throws on a correct
parameter count of one when the parameter has no numeric conversion, so failure is not
equivalent to a wrong parameter count. -/
theorem setParameters_rejects_non_numeric_single :
    AggregateFunctionQuantile.construct.setParameters [Field.nonNumeric] =
      Except.error QErrorCode.cannotConvertToNumber ∧
    [Field.nonNumeric].length = 1 := by
  exact ⟨rfl, rfl⟩

/-- C8 amended: configuration succeeds exactly when the parameter count is right and
every parameter is numeric: the single-quantile `setParameters` succeeds iff there is
exactly one parameter and it converts to a number, the multi-quantile one iff there is
at least one parameter and all of them convert; on success the converted level(s) are
stored. -/
theorem setParameters_success_characterization (f : AggregateFunctionQuantile)
    (g : AggregateFunctionQuantiles) (params : List Field) :
    exceptOk (f.setParameters params) =
      ((params.length == 1) && params.all Field.isNumeric) ∧
    exceptOk (g.setParameters params) =
      (!params.isEmpty && params.all Field.isNumeric) := by
  constructor
  · match params with
    | [] => rfl
    | [p] =>
      cases p <;> rfl
    | p :: p2 :: rest =>
      show false = _
      simp [List.length_cons]
  · match params with
    | [] => rfl
    | p :: rest =>
      show exceptOk (((p :: rest).mapM FieldVisitorConvertToNumber).map _) = _
      rw [show (!(p :: rest).isEmpty) = true from rfl, Bool.true_and,
        ← exceptOk_mapM_convert]
      cases hm : (p :: rest).mapM FieldVisitorConvertToNumber <;> rfl

/-- C3: the multi-quantile finalize appends exactly one result per configured level, in
the caller-configured order — the i-th appended element is the interpolated quantile at
the i-th configured level — and every level is answered from the same single sorted
snapshot of the original sample. -/
theorem quantiles_insertResultInto_ordered_per_level (f : AggregateFunctionQuantiles)
    (s : ReservoirSampler) (c : ColumnArrayFloat) :
    (f.insertResultIntoFloat s c).1.data =
      c.data ++ f.levels.map (fun l =>
        if s.sample.isEmpty then RSResult.nan
        else RSResult.val (interpolate s.snapshot l)) := by
  show c.data ++ (quantLoop s f.levels).1 = _
  rw [quantLoop_fst]
  congr 1
  exact List.map_congr_left (fun l _ => quantilePure_eq s l)

/-- C1 counterexample: finalize operates on the live sample buffer, not a private
snapshot — reading the quantile of a state holding the unsorted sample `[2, 1]` leaves
the stored buffer sorted to `[1, 2]`, a different list than before the call. -/
theorem insertResultInto_sorts_live_buffer :
    (AggregateFunctionQuantile.construct.insertResultIntoFloat
        ⟨2, 2, [2, 1], 0⟩ []).2.sample ≠
      (⟨2, 2, [2, 1], 0⟩ : ReservoirSampler).sample := by
  have hs : (ReservoirSampler.snapshot ⟨2, 2, [2, 1], 0⟩) = [1, 2] := by
    show ([2, 1] : List ℚ).mergeSort (fun a b => decide (a ≤ b)) = [1, 2]
    rw [List.mergeSort]
    norm_num [List.splitInTwo, List.merge, List.mergeSort]
  show (ReservoirSampler.quantileInterpolated ⟨2, 2, [2, 1], 0⟩ (1 / 2)).2.sample ≠ [2, 1]
  rw [quantileInterpolated_snd_sample ⟨2, 2, [2, 1], 0⟩ (1 / 2) rfl]
  dsimp
  rw [hs]
  decide

/-- C1 amended: finalization does not change the sampler's logical state observable by
subsequent inserts or merges — capacity, `seen_count` and the multiset of sampled values
are exactly preserved by every finalize (single float, single integral, and multi) —
but it achieves this by sorting the live sample buffer in place (behind the header's
`const_cast`), not by working on a private sorted snapshot. -/
theorem insertResultInto_preserves_logical_state (f : AggregateFunctionQuantile)
    (g : AggregateFunctionQuantiles) (s : ReservoirSampler) (toF : List RSResult)
    (toI : List ℤ) (arrF : ColumnArrayFloat) :
    ((f.insertResultIntoFloat s toF).2.capacity = s.capacity ∧
      (f.insertResultIntoFloat s toF).2.seen_count = s.seen_count ∧
      ((f.insertResultIntoFloat s toF).2.sample : Multiset ℚ) = (s.sample : Multiset ℚ)) ∧
    ((f.insertResultIntoInt s toI).2.capacity = s.capacity ∧
      (f.insertResultIntoInt s toI).2.seen_count = s.seen_count ∧
      ((f.insertResultIntoInt s toI).2.sample : Multiset ℚ) = (s.sample : Multiset ℚ)) ∧
    ((g.insertResultIntoFloat s arrF).2.capacity = s.capacity ∧
      (g.insertResultIntoFloat s arrF).2.seen_count = s.seen_count ∧
      ((g.insertResultIntoFloat s arrF).2.sample : Multiset ℚ) = (s.sample : Multiset ℚ)) := by
  refine ⟨⟨?_, ?_, ?_⟩, ⟨?_, ?_, ?_⟩, ⟨?_, ?_, ?_⟩⟩
  · exact quantileInterpolated_capacity s f.level
  · exact quantileInterpolated_seen s f.level
  · exact Multiset.coe_eq_coe.mpr (quantileInterpolated_sample_perm s f.level)
  · exact quantileInterpolated_capacity s f.level
  · exact quantileInterpolated_seen s f.level
  · exact Multiset.coe_eq_coe.mpr (quantileInterpolated_sample_perm s f.level)
  · exact quantLoop_snd_capacity s g.levels
  · exact quantLoop_snd_seen s g.levels
  · exact Multiset.coe_eq_coe.mpr (quantLoop_snd_perm s g.levels)

/-- C10: every multi-quantile finalize appends exactly `levels.size()` scalars to the
nested data column and one offset entry equal to the previous last offset (`0` for the
first entry) plus `levels.size()`; hence if the last offset matched the data length
before the call it still does after, in both the float and the integral branch. -/
theorem quantiles_offsets_consistency (f : AggregateFunctionQuantiles)
    (s : ReservoirSampler) (cF : ColumnArrayFloat) (cI : ColumnArrayInt) :
    ((f.insertResultIntoFloat s cF).1.data.length = cF.data.length + f.levels.length ∧
      (f.insertResultIntoFloat s cF).1.offsets =
        cF.offsets ++ [cF.offsets.getLastD 0 + f.levels.length] ∧
      (cF.offsets.getLastD 0 = cF.data.length →
        (f.insertResultIntoFloat s cF).1.offsets.getLastD 0 =
          (f.insertResultIntoFloat s cF).1.data.length)) ∧
    ((f.insertResultIntoInt s cI).1.data.length = cI.data.length + f.levels.length ∧
      (f.insertResultIntoInt s cI).1.offsets =
        cI.offsets ++ [cI.offsets.getLastD 0 + f.levels.length] ∧
      (cI.offsets.getLastD 0 = cI.data.length →
        (f.insertResultIntoInt s cI).1.offsets.getLastD 0 =
          (f.insertResultIntoInt s cI).1.data.length)) := by
  have hlenF : (f.insertResultIntoFloat s cF).1.data.length =
      cF.data.length + f.levels.length := by
    show (cF.data ++ (quantLoop s f.levels).1).length = _
    rw [List.length_append, quantLoop_length]
  have hlenI : (f.insertResultIntoInt s cI).1.data.length =
      cI.data.length + f.levels.length := by
    show (cI.data ++ (quantLoopInt s f.levels).1).length = _
    rw [List.length_append, quantLoopInt_length]
  refine ⟨⟨hlenF, rfl, fun h => ?_⟩, ⟨hlenI, rfl, fun h => ?_⟩⟩
  · show (cF.offsets ++ [cF.offsets.getLastD 0 + f.levels.length]).getLastD 0 = _
    rw [List.getLastD_concat, hlenF, h]
  · show (cI.offsets ++ [cI.offsets.getLastD 0 + f.levels.length]).getLastD 0 = _
    rw [List.getLastD_concat, hlenI, h]

/-- C10 witness: the offsets invariant concretely, starting from an empty array column
with levels `[1/4, 3/4]`. -/
theorem quantiles_offsets_consistency_witness :
    ((⟨[1 / 4, 3 / 4]⟩ : AggregateFunctionQuantiles).insertResultIntoFloat
        (ReservoirSampler.init 4 0) ⟨[], []⟩).1.offsets.getLastD 0 =
      ((⟨[1 / 4, 3 / 4]⟩ : AggregateFunctionQuantiles).insertResultIntoFloat
        (ReservoirSampler.init 4 0) ⟨[], []⟩).1.data.length :=
  (quantiles_offsets_consistency ⟨[1 / 4, 3 / 4]⟩ (ReservoirSampler.init 4 0) ⟨[], []⟩
    ⟨[], []⟩).1.2.2 rfl

/-- C4: deserializing the bytes produced by serializing a sampler state (one satisfying
the sampler's size invariant) reproduces the capacity, the `seen_count`, and the exact
multiset of sampled values — in fact the exact sample list, only the private generator
state being freshly seeded. -/
theorem serialize_deserialize_roundtrip (s : ReservoirSampler) (seed : ℕ) (h : s.inv) :
    ReservoirSampler.read seed s.write = Except.ok { s with rng_state := seed } ∧
    ∀ s2, ReservoirSampler.read seed s.write = Except.ok s2 →
      s2.capacity = s.capacity ∧ s2.seen_count = s.seen_count ∧
        (s2.sample : Multiset ℚ) = (s.sample : Multiset ℚ) := by
  have hlen : s.sample.length = min s.seen_count s.capacity := h
  have h1 : ReservoirSampler.read seed s.write = Except.ok { s with rng_state := seed } := by
    show (if s.sample.length ≠ min s.seen_count s.capacity then
        (Except.error SerError.inconsistentLength : Except SerError ReservoirSampler)
      else
        match readValues s.sample.length (s.sample.map SerTok.value) with
        | some (vs, []) => Except.ok (ReservoirSampler.mk s.capacity s.seen_count vs seed)
        | _ => Except.error SerError.malformed) =
      Except.ok { s with rng_state := seed }
    rw [if_neg (not_ne_iff.mpr hlen)]
    rw [show s.sample.map SerTok.value = s.sample.map SerTok.value ++ [] by simp,
      readValues_append]
  refine ⟨h1, fun s2 h2 => ?_⟩
  rw [h1] at h2
  cases h2
  exact ⟨rfl, rfl, rfl⟩

/-- C4 witness: the round-trip at a concrete state of capacity 3 holding two values. -/
theorem serialize_deserialize_roundtrip_witness :
    ReservoirSampler.read 5 (ReservoirSampler.write ⟨3, 2, [7, 9], 1⟩) =
      Except.ok (⟨3, 2, [7, 9], 5⟩ : ReservoirSampler) :=
  (serialize_deserialize_roundtrip ⟨3, 2, [7, 9], 1⟩ 5
    (by show ([7, 9] : List ℚ).length = min 2 3; decide)).1

/-- C5: the invariant `|sample| == min(seen_count, capacity)` is preserved by every
insert and every (same-capacity) merge; a fresh sampler of capacity `k ≥ 1` holds
exactly `min(n, k)` samples after `n` inserts with `seen_count = n`, and inserting `k`
values and then one more leaves the sample size at `k` with `seen_count = k + 1`. -/
theorem sample_size_invariant (s a b : ReservoirSampler) (v : ℚ) (k seed : ℕ)
    (vs : List ℚ) (hs : s.inv) (ha : a.inv) (hb : b.inv) (hcap : a.capacity = b.capacity)
    (hk : 1 ≤ k) :
    (s.insert v).inv ∧
    (a.merge b).inv ∧
    ((ReservoirSampler.init k seed).insertList vs).sample.length = min vs.length k ∧
    ((ReservoirSampler.init k seed).insertList vs).seen_count = vs.length ∧
    (vs.length = k →
      (((ReservoirSampler.init k seed).insertList vs).insert v).sample.length = k ∧
      (((ReservoirSampler.init k seed).insertList vs).insert v).seen_count = k + 1) := by
  have hfresh : (ReservoirSampler.init k seed).inv := by
    show (0 : ℕ) = min 0 k
    omega
  have hlist : ((ReservoirSampler.init k seed).insertList vs).inv :=
    insertList_inv _ vs hfresh
  have hseen : ((ReservoirSampler.init k seed).insertList vs).seen_count = vs.length := by
    rw [insertList_seen]
    show 0 + vs.length = vs.length
    omega
  have hcapk : ((ReservoirSampler.init k seed).insertList vs).capacity = k := by
    rw [insertList_capacity]
    rfl
  refine ⟨insert_inv s v hs, merge_inv a b ha hb hcap, ?_, hseen, fun hvk => ⟨?_, ?_⟩⟩
  · rw [ReservoirSampler.inv, hseen, hcapk] at hlist
    exact hlist
  · have h2 := insert_inv _ v hlist
    rw [ReservoirSampler.inv, insert_seen, insert_capacity, hseen, hcapk, hvk] at h2
    omega
  · rw [insert_seen, hseen, hvk]

/-- C5 witness: the invariant at concrete states — insert into a saturated sampler,
merge of two small samplers, and two inserts into a fresh sampler of capacity 2. -/
theorem sample_size_invariant_witness :
    ((ReservoirSampler.init 2 0).insertList [1, 2]).sample.length =
      min ([1, 2] : List ℚ).length 2 :=
  (sample_size_invariant ⟨2, 3, [5, 6], 7⟩ ⟨2, 3, [5, 6], 7⟩ ⟨2, 1, [4], 3⟩ 9 2 0 [1, 2]
    (by show ([5, 6] : List ℚ).length = min 3 2; decide)
    (by show ([5, 6] : List ℚ).length = min 3 2; decide)
    (by show ([4] : List ℚ).length = min 1 2; decide)
    (by decide) (by decide)).2.2.1

end DB
